import Mathlib

/-!
Verification development for the rule-based bank chatbot core
(`app.py`: `normalize_text`, `find_intent_response`, `extract_entities`,
`append_to_dataset_row`, and the reply-synthesis / persistence logic of
`chat`).

Python strings are embedded as `List Char`, restricted to the ASCII
behaviour of the Python string primitives actually exercised
(`lower`, `upper`, `strip`, `split`, `replace`, `in`, and the regexes
`\d+`, `\b(\d{6,})\b`, `\b(\d+)\b`, `\b([A-Za-z]{2,})\b`,
`MONEY:(\d+)`); Lean `Char.toLower`/`Char.toUpper` are likewise
ASCII-only.  File I/O is modelled by carrying the durable log as an
explicit list and the possibility of an I/O exception as an explicit
boolean (`persistOk`), since the source swallows the exception.
All definitions are structurally recursive so that concrete instances
evaluate by `decide` / `rfl`.
-/

namespace BankBot

/-- The apostrophe character, built by code point to keep literals plain. -/
def apos : Char := Char.ofNat 39

/-- Python `str` whitespace for `strip()`/`split()` (ASCII fragment):
space, tab, newline, carriage return, vertical tab, form feed. -/
def isPySpace (c : Char) : Bool :=
  c.toNat == 32 || c.toNat == 9 || c.toNat == 10 || c.toNat == 13 ||
  c.toNat == 11 || c.toNat == 12

/-- Python `s.lower()` (ASCII). -/
def pyLower (l : List Char) : List Char := l.map Char.toLower

/-- Python `s.upper()` (ASCII). -/
def pyUpper (l : List Char) : List Char := l.map Char.toUpper

/-- Python `s.strip()`: drop leading and trailing whitespace. -/
def pyStrip (l : List Char) : List Char :=
  ((l.dropWhile isPySpace).reverse.dropWhile isPySpace).reverse

/-- Worker for Python `s.replace(p, r)` (all non-overlapping occurrences,
left to right).  The `skip` counter consumes the tail of an occurrence that
was just rewritten, which keeps the recursion structural on the string.
Only called with non-empty patterns `p` (as in the source). -/
def replaceAux (p r : List Char) : List Char → Nat → List Char
  | [], _ => []
  | _ :: cs, Nat.succ k => replaceAux p r cs k
  | c :: cs, 0 =>
    if p.isPrefixOf (c :: cs) then r ++ replaceAux p r cs (p.length - 1)
    else c :: replaceAux p r cs 0

/-- Python `s.replace(p, r)` for a non-empty pattern `p`. -/
def replaceList (p r s : List Char) : List Char := replaceAux p r s 0

/-- The character set kept by `normalize_text`
(`string.ascii_lowercase + string.digits` and the space character). -/
def allowedChar (c : Char) : Bool :=
  (97 ≤ c.toNat && c.toNat ≤ 122) || (48 ≤ c.toNat && c.toNat ≤ 57) ||
  c.toNat == 32

/-- Worker for Python `s.split()` (split on whitespace runs, dropping empty
pieces); `acc` holds the characters of the current token in reverse. -/
def pySplitAux : List Char → List Char → List (List Char)
  | [], acc => if acc = [] then [] else [acc.reverse]
  | c :: cs, acc =>
    if isPySpace c then
      if acc = [] then pySplitAux cs [] else acc.reverse :: pySplitAux cs []
    else pySplitAux cs (c :: acc)

/-- Python `s.split()` with no argument. -/
def pySplit (l : List Char) : List (List Char) := pySplitAux l []

/-- Python `sep.join(tokens)` for a one-character separator. -/
def pyJoin (sep : Char) : List (List Char) → List Char
  | [] => []
  | [t] => t
  | t :: t' :: ts => t ++ sep :: pyJoin sep (t' :: ts)

/-- The contraction patterns expanded by `normalize_text`. -/
def patWhats : List Char := ['w', 'h', 'a', 't', apos, 's']

/-- See `patWhats`. -/
def patIts : List Char := ['i', 't', apos, 's']

/-- See `patWhats`. -/
def patIm : List Char := ['i', apos, 'm']

/-- `normalize_text` from `app.py`: empty in, empty out; otherwise
lowercase, strip, expand the three fixed contractions by literal
substring replacement, drop every character outside lowercase
letters / digits / space, and re-join the whitespace-split tokens with
single spaces. -/
def normalize_text (s : List Char) : List Char :=
  if s = [] then []
  else
    let s1 := pyStrip (pyLower s)
    let s2 := replaceList patIm ('i' :: ' ' :: ['a', 'm'])
      (replaceList patIts "it is".data (replaceList patWhats "what is".data s1))
    let s3 := s2.filter allowedChar
    pyJoin ' ' (pySplit s3)

/-- Python `needle in hay` for strings: substring containment
(empty needle always matches). -/
def containsSub (needle : List Char) : List Char → Bool
  | [] => needle.isPrefixOf []
  | c :: cs => needle.isPrefixOf (c :: cs) || containsSub needle cs

/-- Python `s.split(sep, 1)` when `sep` occurs: the pieces before and after
the first occurrence; `none` when `sep` does not occur. -/
def splitFirst (sep : Char) : List Char → Option (List Char × List Char)
  | [] => none
  | c :: cs =>
    if c = sep then some ([], cs)
    else (splitFirst sep cs).map (fun q => (c :: q.1, q.2))

/-- Python `s.split(sep)` for a one-character separator (keeps empty
pieces; `"".split(sep) = [""]`). -/
def splitSep (sep : Char) : List Char → List (List Char)
  | [] => [[]]
  | c :: cs =>
    if c = sep then [] :: splitSep sep cs
    else
      match splitSep sep cs with
      | [] => [[c]]
      | t :: ts => (c :: t) :: ts

/-- Worker for `runs`: maximal runs of characters satisfying `p`, with the
current run accumulated in reverse. -/
def runsAux (p : Char → Bool) : List Char → List Char → List (List Char)
  | [], acc => if acc = [] then [] else [acc.reverse]
  | c :: cs, acc =>
    if p c then runsAux p cs (c :: acc)
    else if acc = [] then runsAux p cs []
    else acc.reverse :: runsAux p cs []

/-- The maximal runs of characters satisfying `p`, in order. -/
def runs (p : Char → Bool) (l : List Char) : List (List Char) :=
  runsAux p l []

/-- Python `re.findall` with pattern `\d+`: all maximal digit runs, in order. -/
def digitRuns (l : List Char) : List (List Char) := runs Char.isDigit l

/-- A regex word character (`\w`, ASCII): letter, digit or underscore. -/
def isWordChar (c : Char) : Bool := c.isAlphanum || c.toNat == 95

/-- The maximal `\w`-runs of the text, in order.  A pattern of the form
`\b(C{n,})\b` with a character class `C ⊆ \w` matches exactly when some
maximal `\w`-run consists solely of `C`-characters and has length at least
`n` (boundaries force the match to cover a whole `\w`-run), and
`re.search` returns the leftmost such run. -/
def wordRuns (l : List Char) : List (List Char) := runs isWordChar l

/-- Python `re.search` with pattern `\b(\d{6,})\b`, per the `wordRuns`
reduction: the first maximal `\w`-run that is all digits, length ≥ 6. -/
def searchAccountNumber (text : List Char) : Option (List Char) :=
  (wordRuns text).find? (fun r => r.all Char.isDigit && decide (6 ≤ r.length))

/-- Python `re.search` with pattern `\b(\d+)\b`: the first maximal
`\w`-run that is all digits. -/
def searchAmount (text : List Char) : Option (List Char) :=
  (wordRuns text).find? (fun r => r.all Char.isDigit && decide (1 ≤ r.length))

/-- Python `re.search` with pattern `\b([A-Za-z]{2,})\b`: the first
maximal `\w`-run that is all letters, length ≥ 2. -/
def searchPerson (text : List Char) : Option (List Char) :=
  (wordRuns text).find? (fun r => r.all Char.isAlpha && decide (2 ≤ r.length))

/-- One corpus row, as loaded from the CSV dataset.  The source reads rows
as dicts with `row.get(key)` defaulting missing or null fields to the
empty string, so every field is a total string here. -/
structure Row where
  text : List Char
  intent : List Char
  response : List Char
  entities : List Char
deriving DecidableEq

/-- The dict `find_intent_response` returns on success
(`intent` / `response` / `entities` copied from the matched row). -/
structure MatchResult where
  intent : List Char
  response : List Char
  entities : List Char
deriving DecidableEq

/-- The normalized form of a row text used by stages 1 and 3:
`normalize_text((row.get(text) or "").strip().lower())`. -/
def rowNorm (row : Row) : List Char :=
  normalize_text (pyLower (pyStrip row.text))

/-- The result dict built from a matched row. -/
def mkResult (row : Row) : MatchResult :=
  ⟨row.intent, row.response, row.entities⟩

/-- Stage 1 of `find_intent_response`: first row whose non-empty
normalized text equals the normalized message. -/
def stage1 (message_norm : List Char) : List Row → Option MatchResult
  | [] => none
  | row :: rest =>
    if rowNorm row ≠ [] ∧ rowNorm row = message_norm then some (mkResult row)
    else stage1 message_norm rest

/-- The inner per-segment test of stage 2: the segment splits at its first
colon, the trimmed value is non-empty, contains a digit, and occurs in the
raw message, occurs in the concatenation of the digit runs of the message,
or equals one of those digit runs.  (The source returns from the innermost
loop; the returned row does not depend on which segment fired, so the loop
is a disjunction over segments.) -/
def stage2Seg (user_message digits_concat : List Char)
    (message_digits : List (List Char)) (p : List Char) : Bool :=
  match splitFirst ':' p with
  | none => false
  | some q =>
    let val := pyStrip q.2
    !val.isEmpty && val.any Char.isDigit &&
      (containsSub val user_message || containsSub val digits_concat ||
        message_digits.contains val)

/-- Stage 2 of `find_intent_response`: first row whose stripped `entities`
string mentions `ACCOUNT_NUMBER` or `MONEY` and has a segment passing
`stage2Seg`. -/
def stage2 (user_message digits_concat : List Char)
    (message_digits : List (List Char)) : List Row → Option MatchResult
  | [] => none
  | row :: rest =>
    let ents := pyStrip row.entities
    if (containsSub "ACCOUNT_NUMBER".data ents ||
          containsSub "MONEY".data ents) &&
        (splitSep '|' ents).any (stage2Seg user_message digits_concat message_digits) then
      some (mkResult row)
    else stage2 user_message digits_concat message_digits rest

/-- The token-overlap score of stage 3:
`len(set(message_norm.split()) & set(row_norm.split()))`. -/
def tokenOverlap (message_norm row_norm : List Char) : Nat :=
  ((pySplit message_norm).dedup.filter
    (fun t => (pySplit row_norm).dedup.contains t)).length

/-- The stage-3 loop: `best` / `bestScore` fold over the rows, skipping
rows with empty normalized text and updating only on a strictly larger
overlap. -/
def stage3Aux (message_norm : List Char) :
    List Row → Option Row → Nat → Option Row × Nat
  | [], best, bestScore => (best, bestScore)
  | row :: rest, best, bestScore =>
    if rowNorm row = [] then stage3Aux message_norm rest best bestScore
    else
      let score := tokenOverlap message_norm (rowNorm row)
      if bestScore < score then stage3Aux message_norm rest (some row) score
      else stage3Aux message_norm rest best bestScore

/-- Stage 3 of `find_intent_response`: return the best row when one was
kept and its score is at least 1. -/
def stage3 (message_norm : List Char) (dataset : List Row) :
    Option MatchResult :=
  match stage3Aux message_norm dataset none 0 with
  | (some row, bestScore) =>
    if 1 ≤ bestScore then some (mkResult row) else none
  | (none, _) => none

/-- `find_intent_response` from `app.py`: empty message short-circuits to
no match; otherwise the three stages run in order and the first to produce
a result wins.  (The source also computes `message_lower`, which is never
read afterwards.) -/
def find_intent_response (dataset : List Row) (user_message : List Char) :
    Option MatchResult :=
  if user_message = [] then none
  else
    let message_norm := normalize_text user_message
    match stage1 message_norm dataset with
    | some r => some r
    | none =>
      let message_digits := digitRuns user_message
      let digits_concat := message_digits.flatten
      match stage2 user_message digits_concat message_digits dataset with
      | some r => some r
      | none => stage3 message_norm dataset

/-- The entity dict built by `extract_entities`: each key is present
(`some`) or absent (`none`). -/
structure Entities where
  account_number : Option (List Char)
  amount : Option (List Char)
  person : Option (List Char)
deriving DecidableEq

/-- The empty entity dict. -/
def Entities.empty : Entities := ⟨none, none, none⟩

/-- One step of the explicit-annotation pass of `extract_entities`:
segments without a colon are skipped; otherwise the key is trimmed and
uppercased, the value trimmed, and a recognized key with a non-empty value
overwrites the corresponding field. -/
def applySeg (e : Entities) (seg : List Char) : Entities :=
  match splitFirst ':' seg with
  | none => e
  | some q =>
    let key := pyUpper (pyStrip q.1)
    let val := pyStrip q.2
    if key = "ACCOUNT_NUMBER".data ∧ val ≠ [] then
      { e with account_number := some val }
    else if key = "MONEY".data ∧ val ≠ [] then
      { e with amount := some val }
    else if key = "PERSON".data ∧ val ≠ [] then
      { e with person := some val }
    else e

/-- `extract_entities` from `app.py`: an empty annotation string returns
the empty dict at once; otherwise the annotation segments are applied in
order, and each still-absent key falls back to a regex search over the
utterance text (see `searchAccountNumber` / `searchAmount` /
`searchPerson` for the regex embedding). -/
def extract_entities (text entities_str : List Char) : Entities :=
  if entities_str = [] then Entities.empty
  else
    let e1 := (splitSep '|' entities_str).foldl applySeg Entities.empty
    { account_number :=
        match e1.account_number with
        | some v => some v
        | none => searchAccountNumber text
      amount :=
        match e1.amount with
        | some v => some v
        | none => searchAmount text
      person :=
        match e1.person with
        | some v => some v
        | none => searchPerson text }

/-- `get_intent_color` from `app.py`: static lookup with a default. -/
def get_intent_color (intent : List Char) : List Char :=
  if intent = "greet".data then "#4CAF50".data
  else if intent = "goodbye".data then "#FF9800".data
  else if intent = "check_balance".data then "#2196F3".data
  else if intent = "transaction_inquiry".data then "#9C27B0".data
  else if intent = "loan_inquiry".data then "#F44336".data
  else if intent = "card_inquiry".data then "#00BCD4".data
  else if intent = "block_card".data then "#E91E63".data
  else if intent = "branch_locator".data then "#795548".data
  else if intent = "transfer_money".data then "#FF5722".data
  else if intent = "thanks".data then "#8BC34A".data
  else if intent = "out_of_scope".data then "#757575".data
  else "#757575".data

/-- The money-bag emoji (U+1F4B0) opening the templated balance replies,
built by code point to keep the file ASCII. -/
def moneyEmoji : Char := Char.ofNat 0x1F4B0

/-- The templated balance statement of `chat`:
the f-string `{moneyEmoji} Your balance is {v}.` -/
def balTemplate (v : List Char) : List Char :=
  moneyEmoji :: " Your balance is ".data ++ v ++ ['.']

/-- Python `re.search` with pattern `MONEY:(\d+)`: scan left to right for
an occurrence of `MONEY:` followed directly by at least one digit, and
return the maximal digit run after that colon. -/
def searchMoneyVal : List Char → Option (List Char)
  | [] => none
  | c :: cs =>
    if "MONEY:".data.isPrefixOf (c :: cs) then
      let ds := ((c :: cs).drop 6).takeWhile Char.isDigit
      if ds ≠ [] then some ds else searchMoneyVal cs
    else searchMoneyVal cs

/-- The account-number/MONEY pairing scan of `chat`: the first row whose
raw `entities` string contains both `ACCOUNT_NUMBER:` ++ `acct` and
`MONEY:` as substrings and from which `re.search` with `MONEY:(\d+)`
extracts a value.  A row passing the substring tests but failing the
regex does not break the loop in the source, so the scan continues. -/
def scanMoney (acct : List Char) : List Row → Option (List Char)
  | [] => none
  | row :: rest =>
    if containsSub ("ACCOUNT_NUMBER:".data ++ acct) row.entities &&
        containsSub "MONEY:".data row.entities then
      match searchMoneyVal row.entities with
      | some v => some v
      | none => scanMoney acct rest
    else scanMoney acct rest

/-- The reply-synthesis block of `chat` (lines 374-404): start from the
stripped dataset response; if it is empty, fall back in order to
(a) the extracted amount, (b) the `scanMoney` pairing (which also stores
the found value as the amount entity), and (c) the first digit run of the
user message; otherwise the reply stays empty.  Returns the reply together
with the possibly updated entity dict. -/
def synth (dataset : List Row) (user_message response : List Char)
    (entities : Entities) : List Char × Entities :=
  let bot0 := pyStrip response
  let step :=
    if bot0 = [] then
      match entities.amount with
      | some amt => (balTemplate amt, entities)
      | none =>
        let acct := entities.account_number.getD []
        if acct ≠ [] then
          match scanMoney acct dataset with
          | some v => (balTemplate v, { entities with amount := some v })
          | none => ([], entities)
        else ([], entities)
    else (bot0, entities)
  if step.1 = [] then
    match digitRuns user_message with
    | d :: _ => (balTemplate d, step.2)
    | [] => step
  else step

/-- The corpus store: the in-memory `dataset` list plus the data rows of
the durable CSV log (the log rows carry the same four fields). -/
structure CorpusState where
  mem : List Row
  log : List Row
deriving DecidableEq

/-- The duplicate check of `append_to_dataset_row`: some in-memory row
has identical `text`, `intent` and `entities`. -/
def dupExists (mem : List Row) (text intent entities_str : List Char) : Bool :=
  mem.any (fun row =>
    row.text == text && row.intent == intent && row.entities == entities_str)

/-- `append_to_dataset_row` from `app.py`: a duplicate
`(text, intent, entities)` makes the call a no-op returning `false`
(not added); otherwise the row is written to the durable log and appended
to the in-memory dataset, returning `true`. -/
def append_to_dataset_row (st : CorpusState)
    (text intent response entities_str : List Char) : CorpusState × Bool :=
  if dupExists st.mem text intent entities_str then (st, false)
  else
    (⟨st.mem ++ [⟨text, intent, response, entities_str⟩],
      st.log ++ [⟨text, intent, response, entities_str⟩]⟩, true)

/-- One stored conversation turn of a user fact record. -/
structure Conv where
  user : List Char
  bot : List Char
  intent : List Char
deriving DecidableEq

/-- The per-user fact record held in `user_data`.  `balance` is a float
copied from the user table and never computed with on the modelled paths,
so it is carried as an integer-valued field.  The `amount` and `person`
keys are written into the record by `dict.update(entities)`, hence the
optional fields. -/
structure UserRecord where
  account_number : List Char
  balance : Int
  amount : Option (List Char)
  person : Option (List Char)
  last_amount : Option (List Char)
  last_recipient : Option (List Char)
  conversations : List Conv
deriving DecidableEq

/-- The entity merge of `chat` (lines 406-414): when the entity dict is
non-empty, `update(entities)` overwrites the present keys, then
`last_amount` / `last_recipient` / `account_number` are refreshed from the
present keys. -/
def applyEntities (r : UserRecord) (e : Entities) : UserRecord :=
  if e = Entities.empty then r
  else
    { r with
      account_number := e.account_number.getD r.account_number
      amount := match e.amount with | some v => some v | none => r.amount
      person := match e.person with | some v => some v | none => r.person
      last_amount :=
        match e.amount with | some v => some v | none => r.last_amount
      last_recipient :=
        match e.person with | some v => some v | none => r.last_recipient }

/-- The fixed out-of-scope fallback reply of `chat`. -/
def fallbackReply : List Char :=
  ("I can only assist with banking questions. " ++
    "Try asking about balance, transfers, loans, or cards.").data

/-- The `entities_str` derivation of the corpus self-growth block
(lines 426-436): `MONEY:` and `ACCOUNT_NUMBER:` parts from the present
entity keys joined with a bar, falling back to `MONEY:` plus the first
digit run of the reply when no key is present but the reply has digits. -/
def deriveEntitiesStr (e : Entities) (bot_reply : List Char) : List Char :=
  let add1 := match e.amount with
    | some a => ["MONEY:".data ++ a]
    | none => []
  let add2 := match e.account_number with
    | some a => ["ACCOUNT_NUMBER:".data ++ a]
    | none => []
  let entities_str := pyJoin '|' (add1 ++ add2)
  if entities_str = [] then
    match digitRuns bot_reply with
    | d :: _ => "MONEY:".data ++ d
    | [] => entities_str
  else entities_str

/-- The JSON body returned by one `chat` turn. -/
structure ChatResult where
  reply : List Char
  intent : List Char
  intent_color : List Char
deriving DecidableEq

/-- One authenticated `chat` turn (lines 341-463).  Inputs: the corpus
store, the existing user fact record if any, the account number and
balance used to initialize a missing record, the raw message, and
`persistOk`, which is `false` when the durable-log append raises an I/O
error (the source catches the exception before the in-memory append, so a
failing append leaves the corpus store unchanged).  Returns the JSON
body, the saved user record, and the corpus store after the turn. -/
def chat_turn (st : CorpusState) (rec0 : Option UserRecord)
    (acct0 : List Char) (bal0 : Int) (raw_message : List Char)
    (persistOk : Bool) : ChatResult × UserRecord × CorpusState :=
  let user_message := pyStrip raw_message
  let urec :=
    match rec0 with
    | some r => r
    | none => ⟨acct0, bal0, none, none, none, none, []⟩
  match find_intent_response st.mem user_message with
  | some result =>
    let intent := result.intent
    let entities0 := extract_entities user_message result.entities
    let synRes := synth st.mem user_message result.response entities0
    let bot_reply := synRes.1
    let entities := synRes.2
    let rec1 := applyEntities urec entities
    let rec2 := { rec1 with
      conversations := rec1.conversations ++ [⟨user_message, bot_reply, intent⟩] }
    let entities_str := deriveEntitiesStr entities bot_reply
    let st2 :=
      if entities_str ≠ [] then
        if persistOk then
          (append_to_dataset_row st user_message intent bot_reply entities_str).1
        else st
      else st
    (⟨bot_reply, intent, get_intent_color intent⟩, rec2, st2)
  | none =>
    let rec2 := { urec with
      conversations :=
        urec.conversations ++ [⟨user_message, fallbackReply, "out_of_scope".data⟩] }
    (⟨fallbackReply, "out_of_scope".data, get_intent_color "out_of_scope".data⟩,
      rec2, st)

/-! ### Specification-side definitions

Row-level predicates and folds written from the claims of the spec, to be
compared against the loop-structured embedding above. -/

/-- The stage-1 row predicate from the spec: the normalized row text is
non-empty and equals the normalized utterance. -/
def specStage1Match (user_message : List Char) (row : Row) : Bool :=
  !(rowNorm row).isEmpty && rowNorm row == normalize_text user_message

/-- The stage-2 row predicate from the (amended) claim: the stripped
`entities` string contains `ACCOUNT_NUMBER` or `MONEY`; splitting it on
bars and keeping the segments with a colon, some segment has a trimmed
value that is non-empty, contains a digit, and occurs as a substring of
the raw utterance, occurs as a substring of the concatenation of the
maximal digit runs of the raw utterance, or equals a single such digit
run.  (The claim as stated instead demands that the value *equal* the
concatenation; see the counterexample for claim C2.) -/
def specStage2Match (user_message : List Char) (row : Row) : Bool :=
  let ents := pyStrip row.entities
  (containsSub "ACCOUNT_NUMBER".data ents || containsSub "MONEY".data ents) &&
    ((splitSep '|' ents).filter (fun p => (splitFirst ':' p).isSome)).any
      (fun p =>
        match splitFirst ':' p with
        | none => false
        | some q =>
          let val := pyStrip q.2
          !val.isEmpty && val.any Char.isDigit &&
            (containsSub val user_message ||
              containsSub val (digitRuns user_message).flatten ||
              (digitRuns user_message).contains val))

/-- The per-key annotation fold from the claim for C4: over the
bar-separated segments, the last segment with the given (trimmed,
uppercased) key and a non-empty trimmed value wins. -/
def specAnnotVal (key : List Char) (entities_str : List Char) :
    Option (List Char) :=
  (splitSep '|' entities_str).foldl
    (fun acc seg =>
      match splitFirst ':' seg with
      | none => acc
      | some q =>
        if pyUpper (pyStrip q.1) = key ∧ pyStrip q.2 ≠ [] then
          some (pyStrip q.2)
        else acc)
    none

/-- The account/MONEY pairing from the (amended) claim for C5: the first
corpus row whose raw `entities` string contains both
`ACCOUNT_NUMBER:` ++ `acct` and `MONEY:` as substrings *and* in which the
pattern `MONEY:(\d+)` matches supplies the matched digits. -/
def specPairMoney (dataset : List Row) (acct : List Char) :
    Option (List Char) :=
  if acct = [] then none
  else
    (dataset.find? (fun row =>
        (containsSub ("ACCOUNT_NUMBER:".data ++ acct) row.entities &&
          containsSub "MONEY:".data row.entities) &&
          (searchMoneyVal row.entities).isSome)).bind
      (fun row => searchMoneyVal row.entities)

/-- The reply-synthesis cascade from the (amended) claim for C5:
trimmed non-empty response verbatim, else the extracted amount, else the
`specPairMoney` pairing, else the first digit run of the raw utterance,
else the empty string. -/
def specSynthReply (dataset : List Row) (user_message response : List Char)
    (e : Entities) : List Char :=
  if pyStrip response ≠ [] then pyStrip response
  else
    match e.amount with
    | some amt => balTemplate amt
    | none =>
      match specPairMoney dataset (e.account_number.getD []) with
      | some v => balTemplate v
      | none =>
        match digitRuns user_message with
        | d :: _ => balTemplate d
        | [] => []

/-- The key triple `(text, intent, entities)` of the corpus-store
deduplication invariant. -/
def rowKey (row : Row) : List Char × List Char × List Char :=
  (row.text, row.intent, row.entities)

/-- The number of in-memory rows with the given key triple. -/
def countKey (mem : List Row) (text intent entities_str : List Char) : Nat :=
  (mem.filter (fun row =>
    row.text == text && row.intent == intent &&
      row.entities == entities_str)).length

/-! ### Concrete instances used by witnesses and counterexamples -/

/-- The exact-match example row of the spec. -/
def exRowCheckBalance : Row :=
  ⟨"check balance".data, "check_balance".data, "Sure".data, []⟩

/-- A corpus row whose entity value 23 occurs inside the concatenation of
the digit runs of the message `12 34` without equalling it. -/
def exRowMoney23 : Row := ⟨"x".data, "i".data, "r".data, "MONEY:23".data⟩

/-- The token-overlap example rows of the spec. -/
def exRowLoan : Row :=
  ⟨"loan inquiry details".data, "loan_inquiry".data, "L".data, []⟩

/-- See `exRowLoan`. -/
def exRowCard : Row :=
  ⟨"card block request".data, "block_card".data, "B".data, []⟩

/-- The numeric-entity example row of the spec
(empty response, paired account number and money). -/
def exRowAcctMoney : Row :=
  ⟨"balance check".data, "check_balance".data, [],
    "ACCOUNT_NUMBER:123456|MONEY:500".data⟩

/-- The utterance `What` + apostrophe + `s my Balance?`, built without an
apostrophe literal. -/
def whatsMyBalance : List Char := "What".data ++ [apos] ++ "s my Balance?".data

/-! ### Matcher stages as first matches -/

theorem stage1_eq_find (msg : List Char) (ds : List Row) :
    stage1 (normalize_text msg) ds =
      (ds.find? (specStage1Match msg)).map mkResult := by
  induction ds with
  | nil => rfl
  | cons row rest ih =>
    cases hb : specStage1Match msg row with
    | true =>
      have h : rowNorm row ≠ [] ∧ rowNorm row = normalize_text msg := by
        simpa [specStage1Match, List.isEmpty_iff] using hb
      simp only [stage1, if_pos h]
      simp [List.find?_cons, hb]
    | false =>
      have h : ¬(rowNorm row ≠ [] ∧ rowNorm row = normalize_text msg) := by
        simpa [specStage1Match, List.isEmpty_iff] using hb
      simp only [stage1, if_neg h]
      simp [List.find?_cons, hb, ih]

theorem any_filter_eq (p q : List Char → Bool) (l : List (List Char)) :
    (l.filter p).any q = l.any (fun a => p a && q a) := by
  induction l with
  | nil => rfl
  | cons a l ih =>
    cases hp : p a <;> simp [List.filter_cons, hp, ih]

theorem stage2_row_cond (msg : List Char) (row : Row) :
    specStage2Match msg row =
      ((containsSub "ACCOUNT_NUMBER".data (pyStrip row.entities) ||
          containsSub "MONEY".data (pyStrip row.entities)) &&
        (splitSep '|' (pyStrip row.entities)).any
          (stage2Seg msg (digitRuns msg).flatten (digitRuns msg))) := by
  simp only [specStage2Match]
  rw [any_filter_eq]
  congr 1
  congr 1
  funext p
  cases hsp : splitFirst ':' p <;> simp [stage2Seg, hsp]

theorem stage2_eq_find (msg : List Char) (ds : List Row) :
    stage2 msg (digitRuns msg).flatten (digitRuns msg) ds =
      (ds.find? (specStage2Match msg)).map mkResult := by
  induction ds with
  | nil => rfl
  | cons row rest ih =>
    cases hb : specStage2Match msg row with
    | true =>
      rw [stage2_row_cond] at hb
      simp [stage2, List.find?_cons, stage2_row_cond, hb]
    | false =>
      rw [stage2_row_cond] at hb
      simp [stage2, List.find?_cons, stage2_row_cond, hb, ih]

/-- **C1.** Stage-1 exact match: whenever some corpus row passes the
stage-1 predicate (non-empty normalized text equal to the normalized
utterance), `find_intent_response` returns the first such row by stored
order, as the result dict built from that row; the later stages are
irrelevant to the result. -/
theorem claim_C1_stage1_exact_first (ds : List Row) (msg : List Char)
    (row : Row) (h0 : msg ≠ [])
    (h1 : ds.find? (specStage1Match msg) = some row) :
    find_intent_response ds msg = some (mkResult row) := by
  have hs : stage1 (normalize_text msg) ds = some (mkResult row) := by
    rw [stage1_eq_find, h1]; rfl
  simp [find_intent_response, h0, hs]

/-- Witness for C1, the exact-match example of the spec: the row
`check balance* / check_balance / Sure` matches the utterance
`Check Balance!` and its response is returned. -/
theorem claim_C1_witness :
    List.find? (specStage1Match "Check Balance!".data) [exRowCheckBalance] =
        some exRowCheckBalance ∧
      find_intent_response [exRowCheckBalance] "Check Balance!".data =
        some (mkResult exRowCheckBalance) :=
  ⟨by decide,
    claim_C1_stage1_exact_first [exRowCheckBalance] "Check Balance!".data
      exRowCheckBalance (by decide) (by decide)⟩

/-- **C2, counterexample.** The claim as stated requires the entity value
to *equal* the concatenation of the digit runs of the utterance, but the
source tests substring containment (`val in digits_concat`).  For the
corpus `[exRowMoney23]` (sole value 23) and utterance `12 34`, the value
23 is not a substring of the raw utterance, does not equal the
concatenation `1234` of its digit runs, and equals no single digit run —
so under the claim no stage-2 row matches and (stages 1 and 3 failing
too) the matcher would return none — yet the source returns the row,
because 23 is a substring of `1234`. -/
theorem claim_C2_counterexample :
    find_intent_response [exRowMoney23] "12 34".data =
        some (mkResult exRowMoney23) ∧
      stage1 (normalize_text "12 34".data) [exRowMoney23] = none ∧
      stage3 (normalize_text "12 34".data) [exRowMoney23] = none ∧
      splitSep '|' (pyStrip exRowMoney23.entities) = ["MONEY:23".data] ∧
      splitFirst ':' "MONEY:23".data = some ("MONEY".data, "23".data) ∧
      containsSub "23".data "12 34".data = false ∧
      "23".data ≠ (digitRuns "12 34".data).flatten ∧
      "23".data ∉ digitRuns "12 34".data := by
  decide

/-- **C2, amended.** Stage-2 numeric-entity match with the value required
to be a *substring* of (rather than equal to) the concatenation of the
digit runs: when no row passes the stage-1 predicate and some row passes
the (amended) stage-2 predicate, the matcher returns the first such row
by stored order. -/
theorem claim_C2_numeric_first (ds : List Row) (msg : List Char)
    (row : Row) (h0 : msg ≠ [])
    (h1 : ds.find? (specStage1Match msg) = none)
    (h2 : ds.find? (specStage2Match msg) = some row) :
    find_intent_response ds msg = some (mkResult row) := by
  have hs1 : stage1 (normalize_text msg) ds = none := by
    rw [stage1_eq_find, h1]; rfl
  have hs2 : stage2 msg (digitRuns msg).flatten (digitRuns msg) ds =
      some (mkResult row) := by
    rw [stage2_eq_find, h2]; rfl
  simp [find_intent_response, h0, hs1, hs2]

/-- Witness for C2 (amended), the numeric-entity example of the spec:
utterance `balance for 123456` selects the row annotated
`ACCOUNT_NUMBER:123456|MONEY:500`. -/
theorem claim_C2_witness :
    List.find? (specStage2Match "balance for 123456".data) [exRowAcctMoney] =
        some exRowAcctMoney ∧
      find_intent_response [exRowAcctMoney] "balance for 123456".data =
        some (mkResult exRowAcctMoney) :=
  ⟨by decide,
    claim_C2_numeric_first [exRowAcctMoney] "balance for 123456".data
      exRowAcctMoney (by decide) (by decide) (by decide)⟩

/-! ### Corpus-store append (C6) -/

theorem append_of_dup (st : CorpusState) (t i r e : List Char)
    (h : dupExists st.mem t i e = true) :
    append_to_dataset_row st t i r e = (st, false) := by
  simp [append_to_dataset_row, h]

theorem append_of_nodup (st : CorpusState) (t i r e : List Char)
    (h : dupExists st.mem t i e = false) :
    append_to_dataset_row st t i r e =
      (⟨st.mem ++ [⟨t, i, r, e⟩], st.log ++ [⟨t, i, r, e⟩]⟩, true) := by
  simp [append_to_dataset_row, h]

theorem dup_iff_countKey (mem : List Row) (t i e : List Char) :
    dupExists mem t i e = false ↔ countKey mem t i e = 0 := by
  unfold dupExists countKey
  rw [List.length_eq_zero, List.filter_eq_nil_iff]
  rw [← Bool.not_eq_true, List.any_eq_true]
  push_neg
  constructor
  · intro h row hrow; exact h row hrow
  · intro h row hrow; exact h row hrow

/-- **C6.** Append deduplication: a duplicate `(text, intent, entities)`
key makes `append_to_dataset_row` a no-op returning the not-added flag;
otherwise exactly the new row is appended to both the in-memory sequence
and the durable log; appending a fresh tuple twice stores it exactly once
with the second call a reported no-op; and the pairwise-distinct-key
invariant of the in-memory sequence is preserved by every append. -/
theorem claim_C6_append_dedup (st : CorpusState) (t i r e : List Char) :
    (dupExists st.mem t i e = true →
      append_to_dataset_row st t i r e = (st, false)) ∧
    (dupExists st.mem t i e = false →
      append_to_dataset_row st t i r e =
        (⟨st.mem ++ [⟨t, i, r, e⟩], st.log ++ [⟨t, i, r, e⟩]⟩, true)) ∧
    (countKey st.mem t i e = 0 →
      countKey (append_to_dataset_row st t i r e).1.mem t i e = 1 ∧
      append_to_dataset_row (append_to_dataset_row st t i r e).1 t i r e =
        ((append_to_dataset_row st t i r e).1, false)) ∧
    (st.mem.Pairwise (fun a b => rowKey a ≠ rowKey b) →
      (append_to_dataset_row st t i r e).1.mem.Pairwise
        (fun a b => rowKey a ≠ rowKey b)) := by
  refine ⟨?_, ?_, ?_, ?_⟩
  · exact append_of_dup st t i r e
  · exact append_of_nodup st t i r e
  · intro h
    have hdup : dupExists st.mem t i e = false := (dup_iff_countKey _ _ _ _).mpr h
    have hmem : (append_to_dataset_row st t i r e).1.mem =
        st.mem ++ [⟨t, i, r, e⟩] := by
      rw [append_of_nodup st t i r e hdup]
    constructor
    · rw [hmem]
      unfold countKey at h ⊢
      rw [List.filter_append]
      simp [h, List.filter_cons]
    · have hdup2 : dupExists (append_to_dataset_row st t i r e).1.mem t i e =
          true := by
        rw [hmem]
        unfold dupExists
        rw [List.any_append]
        simp
      rw [append_of_dup _ t i r e hdup2]
  · intro hpw
    cases hdup : dupExists st.mem t i e with
    | true => simpa [append_of_dup st t i r e hdup] using hpw
    | false =>
      have hmem : (append_to_dataset_row st t i r e).1.mem =
          st.mem ++ [⟨t, i, r, e⟩] := by
        rw [append_of_nodup st t i r e hdup]
      rw [hmem, List.pairwise_append]
      refine ⟨hpw, by simp, ?_⟩
      intro a ha b hb
      simp only [List.mem_singleton] at hb
      subst hb
      intro hk
      unfold dupExists at hdup
      rw [← Bool.not_eq_true, List.any_eq_true] at hdup
      apply hdup
      refine ⟨a, ha, ?_⟩
      simp only [rowKey, Prod.mk.injEq] at hk
      simp [hk.1, hk.2.1, hk.2.2]

/-- Witness for C6: appending the same tuple twice to an empty store
keeps exactly one copy and the second call reports not added. -/
theorem claim_C6_witness :
    countKey
        (append_to_dataset_row ⟨[], []⟩ "t".data "i".data "r".data
          "e".data).1.mem "t".data "i".data "e".data = 1 ∧
      append_to_dataset_row
          (append_to_dataset_row ⟨[], []⟩ "t".data "i".data "r".data
            "e".data).1 "t".data "i".data "r".data "e".data =
        ((append_to_dataset_row ⟨[], []⟩ "t".data "i".data "r".data
          "e".data).1, false) :=
  (claim_C6_append_dedup ⟨[], []⟩ "t".data "i".data "r".data "e".data).2.2.1
    (by decide)

/-! ### No-match, empty-input and persistence-failure turns (C7, C9, C10) -/

/-- **C7.** Empty/absent utterances short-circuit to no match for every
corpus (the result does not depend on the corpus at all), and every turn
whose matcher result is absent returns the fixed out-of-scope fallback
reply, the intent `out_of_scope` and its color; the turn is a total
function, so no error surfaces to the caller. -/
theorem claim_C7_nomatch_fallback :
    (∀ ds : List Row, find_intent_response ds [] = none) ∧
    (∀ (st : CorpusState) (rec0 : Option UserRecord) (acct0 : List Char)
        (bal0 : Int) (raw : List Char) (persistOk : Bool),
      find_intent_response st.mem (pyStrip raw) = none →
      (chat_turn st rec0 acct0 bal0 raw persistOk).1 =
        ⟨fallbackReply, "out_of_scope".data, "#757575".data⟩) := by
  constructor
  · intro ds; simp [find_intent_response]
  · intro st rec0 acct0 bal0 raw persistOk h
    simp only [chat_turn, h]
    decide

/-- Witness for C7: a turn on an empty corpus with an unmatched utterance
produces the fallback reply and the out-of-scope intent. -/
theorem claim_C7_witness :
    find_intent_response (CorpusState.mem ⟨[], []⟩) (pyStrip "hello".data) =
        none ∧
      (chat_turn ⟨[], []⟩ none "1".data 0 "hello".data true).1 =
        ⟨fallbackReply, "out_of_scope".data, "#757575".data⟩ :=
  ⟨by decide,
    claim_C7_nomatch_fallback.2 ⟨[], []⟩ none "1".data 0 "hello".data true
      (by decide)⟩

/-- **C9.** Persistence-failure atomicity: a turn whose durable-log
append raises (modelled by `persistOk = false`, since the source catches
the exception around `append_to_dataset_row`) returns exactly the same
JSON body and saves exactly the same user record as the turn in which the
append succeeds, and leaves the corpus store unchanged. -/
theorem claim_C9_persist_failure (st : CorpusState) (rec0 : Option UserRecord)
    (acct0 : List Char) (bal0 : Int) (raw : List Char) :
    (chat_turn st rec0 acct0 bal0 raw false).1 =
        (chat_turn st rec0 acct0 bal0 raw true).1 ∧
      (chat_turn st rec0 acct0 bal0 raw false).2.1 =
        (chat_turn st rec0 acct0 bal0 raw true).2.1 ∧
      (chat_turn st rec0 acct0 bal0 raw false).2.2 = st := by
  cases h : find_intent_response st.mem (pyStrip raw) with
  | none => simp [chat_turn, h]
  | some result => simp [chat_turn, h]

/-- **C10.** Frame property of the no-match path: with an existing user
record, a turn whose matcher result is absent appends exactly one
conversation entry and leaves the other record fields (account number,
balance, the entity keys, last amount, last recipient) unchanged, and
does not touch the corpus store. -/
theorem claim_C10_nomatch_frame (st : CorpusState) (urec : UserRecord)
    (acct0 : List Char) (bal0 : Int) (raw : List Char) (persistOk : Bool)
    (h : find_intent_response st.mem (pyStrip raw) = none) :
    (chat_turn st (some urec) acct0 bal0 raw persistOk).2.1.account_number =
        urec.account_number ∧
      (chat_turn st (some urec) acct0 bal0 raw persistOk).2.1.balance =
        urec.balance ∧
      (chat_turn st (some urec) acct0 bal0 raw persistOk).2.1.amount =
        urec.amount ∧
      (chat_turn st (some urec) acct0 bal0 raw persistOk).2.1.person =
        urec.person ∧
      (chat_turn st (some urec) acct0 bal0 raw persistOk).2.1.last_amount =
        urec.last_amount ∧
      (chat_turn st (some urec) acct0 bal0 raw persistOk).2.1.last_recipient =
        urec.last_recipient ∧
      (chat_turn st (some urec) acct0 bal0 raw persistOk).2.1.conversations =
        urec.conversations ++
          [⟨pyStrip raw, fallbackReply, "out_of_scope".data⟩] ∧
      (chat_turn st (some urec) acct0 bal0 raw persistOk).2.2 = st := by
  simp [chat_turn, h]

/-- Witness for C10 at a concrete record and unmatched utterance. -/
theorem claim_C10_witness :
    (chat_turn ⟨[], []⟩ (some ⟨"7".data, 5000, none, none, none, none, []⟩)
          "7".data 0 "zzz".data true).2.1.account_number = "7".data ∧
      (chat_turn ⟨[], []⟩ (some ⟨"7".data, 5000, none, none, none, none, []⟩)
          "7".data 0 "zzz".data true).2.1.balance = 5000 ∧
      (chat_turn ⟨[], []⟩ (some ⟨"7".data, 5000, none, none, none, none, []⟩)
          "7".data 0 "zzz".data true).2.1.amount = none ∧
      (chat_turn ⟨[], []⟩ (some ⟨"7".data, 5000, none, none, none, none, []⟩)
          "7".data 0 "zzz".data true).2.1.person = none ∧
      (chat_turn ⟨[], []⟩ (some ⟨"7".data, 5000, none, none, none, none, []⟩)
          "7".data 0 "zzz".data true).2.1.last_amount = none ∧
      (chat_turn ⟨[], []⟩ (some ⟨"7".data, 5000, none, none, none, none, []⟩)
          "7".data 0 "zzz".data true).2.1.last_recipient = none ∧
      (chat_turn ⟨[], []⟩ (some ⟨"7".data, 5000, none, none, none, none, []⟩)
          "7".data 0 "zzz".data true).2.1.conversations =
        [] ++ [⟨pyStrip "zzz".data, fallbackReply, "out_of_scope".data⟩] ∧
      (chat_turn ⟨[], []⟩ (some ⟨"7".data, 5000, none, none, none, none, []⟩)
          "7".data 0 "zzz".data true).2.2 = ⟨[], []⟩ :=
  claim_C10_nomatch_frame ⟨[], []⟩ ⟨"7".data, 5000, none, none, none, none, []⟩
    "7".data 0 "zzz".data true (by decide)

/-! ### Entity extraction (C4) -/

theorem applySeg_account (e : Entities) (seg : List Char) :
    (applySeg e seg).account_number =
      (match splitFirst ':' seg with
      | none => e.account_number
      | some q =>
        if pyUpper (pyStrip q.1) = "ACCOUNT_NUMBER".data ∧ pyStrip q.2 ≠ [] then
          some (pyStrip q.2)
        else e.account_number) := by
  cases h : splitFirst ':' seg with
  | none => simp [applySeg, h]
  | some q =>
    simp only [applySeg, h]
    by_cases ha : pyUpper (pyStrip q.1) = "ACCOUNT_NUMBER".data ∧ pyStrip q.2 ≠ []
    · simp [ha]
    · rw [if_neg ha, if_neg ha]
      split_ifs <;> rfl

theorem applySeg_amount (e : Entities) (seg : List Char) :
    (applySeg e seg).amount =
      (match splitFirst ':' seg with
      | none => e.amount
      | some q =>
        if pyUpper (pyStrip q.1) = "MONEY".data ∧ pyStrip q.2 ≠ [] then
          some (pyStrip q.2)
        else e.amount) := by
  cases h : splitFirst ':' seg with
  | none => simp [applySeg, h]
  | some q =>
    simp only [applySeg, h]
    by_cases hm : pyUpper (pyStrip q.1) = "MONEY".data ∧ pyStrip q.2 ≠ []
    · have ha : ¬(pyUpper (pyStrip q.1) = "ACCOUNT_NUMBER".data ∧
          pyStrip q.2 ≠ []) := by
        rintro ⟨h1, -⟩
        rw [h1] at hm
        exact absurd hm.1 (by decide)
      rw [if_neg ha, if_pos hm, if_pos hm]
    · rw [if_neg hm]
      split_ifs <;> rfl

theorem applySeg_person (e : Entities) (seg : List Char) :
    (applySeg e seg).person =
      (match splitFirst ':' seg with
      | none => e.person
      | some q =>
        if pyUpper (pyStrip q.1) = "PERSON".data ∧ pyStrip q.2 ≠ [] then
          some (pyStrip q.2)
        else e.person) := by
  cases h : splitFirst ':' seg with
  | none => simp [applySeg, h]
  | some q =>
    simp only [applySeg, h]
    by_cases hp : pyUpper (pyStrip q.1) = "PERSON".data ∧ pyStrip q.2 ≠ []
    · have ha : ¬(pyUpper (pyStrip q.1) = "ACCOUNT_NUMBER".data ∧
          pyStrip q.2 ≠ []) := by
        rintro ⟨h1, -⟩
        rw [h1] at hp
        exact absurd hp.1 (by decide)
      have hm : ¬(pyUpper (pyStrip q.1) = "MONEY".data ∧
          pyStrip q.2 ≠ []) := by
        rintro ⟨h1, -⟩
        rw [h1] at hp
        exact absurd hp.1 (by decide)
      rw [if_neg ha, if_neg hm, if_pos hp, if_pos hp]
    · rw [if_neg hp]
      split_ifs <;> rfl

theorem foldl_applySeg_account (segs : List (List Char)) : ∀ e : Entities,
    (segs.foldl applySeg e).account_number =
      segs.foldl
        (fun acc seg =>
          match splitFirst ':' seg with
          | none => acc
          | some q =>
            if pyUpper (pyStrip q.1) = "ACCOUNT_NUMBER".data ∧
                pyStrip q.2 ≠ [] then
              some (pyStrip q.2)
            else acc)
        e.account_number := by
  induction segs with
  | nil => intro e; rfl
  | cons seg segs ih =>
    intro e
    simp only [List.foldl_cons]
    rw [ih (applySeg e seg), applySeg_account]

theorem foldl_applySeg_amount (segs : List (List Char)) : ∀ e : Entities,
    (segs.foldl applySeg e).amount =
      segs.foldl
        (fun acc seg =>
          match splitFirst ':' seg with
          | none => acc
          | some q =>
            if pyUpper (pyStrip q.1) = "MONEY".data ∧ pyStrip q.2 ≠ [] then
              some (pyStrip q.2)
            else acc)
        e.amount := by
  induction segs with
  | nil => intro e; rfl
  | cons seg segs ih =>
    intro e
    simp only [List.foldl_cons]
    rw [ih (applySeg e seg), applySeg_amount]

theorem foldl_applySeg_person (segs : List (List Char)) : ∀ e : Entities,
    (segs.foldl applySeg e).person =
      segs.foldl
        (fun acc seg =>
          match splitFirst ':' seg with
          | none => acc
          | some q =>
            if pyUpper (pyStrip q.1) = "PERSON".data ∧ pyStrip q.2 ≠ [] then
              some (pyStrip q.2)
            else acc)
        e.person := by
  induction segs with
  | nil => intro e; rfl
  | cons seg segs ih =>
    intro e
    simp only [List.foldl_cons]
    rw [ih (applySeg e seg), applySeg_person]

/-- **C4, counterexample.** Two divergences from the claim as stated:
with an *empty* annotation string the source returns the empty dict at
once — in particular the claim's own example, utterance
`my account 123456789` with no annotation, yields neither `amount` nor
`account_number` — and the fallback regexes carry word boundaries, so in
`abc123456` (digits glued to letters) no account number, amount or person
is extracted even though the text contains a run of 6 digits, a run of
1+ digits and a run of 2+ letters. -/
theorem claim_C4_counterexample :
    extract_entities "my account 123456789".data [] = Entities.empty ∧
      (extract_entities "my account 123456789".data []).amount = none ∧
      (extract_entities "my account 123456789".data []).account_number =
        none ∧
      extract_entities "abc123456".data "X:1".data = Entities.empty := by
  decide

/-- **C4, amended.** Entity extraction: an empty annotation string yields
the empty dict (no fallback); otherwise each field is the last
bar-separated segment with the matching trimmed-uppercased key and a
non-empty trimmed value, and only when no such segment exists does the
field fall back to the utterance text, where the regexes require word
boundaries: `account_number` is the first maximal word-character run made
of 6 or more digits, `amount` the first such run made of digits, and
`person` the first such run made of 2 or more letters. -/
theorem claim_C4_extract_characterization (text entities_str : List Char) :
    extract_entities text entities_str =
      if entities_str = [] then Entities.empty
      else
        ⟨(specAnnotVal "ACCOUNT_NUMBER".data entities_str).orElse
            (fun _ => searchAccountNumber text),
          (specAnnotVal "MONEY".data entities_str).orElse
            (fun _ => searchAmount text),
          (specAnnotVal "PERSON".data entities_str).orElse
            (fun _ => searchPerson text)⟩ := by
  by_cases h : entities_str = []
  · simp [extract_entities, h]
  · rw [if_neg h]
    simp only [extract_entities, if_neg h]
    rw [Entities.mk.injEq]
    refine ⟨?_, ?_, ?_⟩
    · rw [foldl_applySeg_account]
      have hfold : (splitSep '|' entities_str).foldl
          (fun acc seg =>
            match splitFirst ':' seg with
            | none => acc
            | some q =>
              if pyUpper (pyStrip q.1) = "ACCOUNT_NUMBER".data ∧
                  pyStrip q.2 ≠ [] then
                some (pyStrip q.2)
              else acc)
          Entities.empty.account_number =
          specAnnotVal "ACCOUNT_NUMBER".data entities_str := rfl
      rw [hfold]
      cases hv : specAnnotVal "ACCOUNT_NUMBER".data entities_str <;> rfl
    · rw [foldl_applySeg_amount]
      have hfold : (splitSep '|' entities_str).foldl
          (fun acc seg =>
            match splitFirst ':' seg with
            | none => acc
            | some q =>
              if pyUpper (pyStrip q.1) = "MONEY".data ∧ pyStrip q.2 ≠ [] then
                some (pyStrip q.2)
              else acc)
          Entities.empty.amount =
          specAnnotVal "MONEY".data entities_str := rfl
      rw [hfold]
      cases hv : specAnnotVal "MONEY".data entities_str <;> rfl
    · rw [foldl_applySeg_person]
      have hfold : (splitSep '|' entities_str).foldl
          (fun acc seg =>
            match splitFirst ':' seg with
            | none => acc
            | some q =>
              if pyUpper (pyStrip q.1) = "PERSON".data ∧ pyStrip q.2 ≠ [] then
                some (pyStrip q.2)
              else acc)
          Entities.empty.person =
          specAnnotVal "PERSON".data entities_str := rfl
      rw [hfold]
      cases hv : specAnnotVal "PERSON".data entities_str <;> rfl

/-! ### Reply synthesis (C5) -/

theorem scanMoney_eq_find (acct : List Char) (ds : List Row) :
    scanMoney acct ds =
      (ds.find? (fun row =>
        (containsSub ("ACCOUNT_NUMBER:".data ++ acct) row.entities &&
          containsSub "MONEY:".data row.entities) &&
          (searchMoneyVal row.entities).isSome)).bind
        (fun row => searchMoneyVal row.entities) := by
  induction ds with
  | nil => rfl
  | cons row rest ih =>
    simp only [scanMoney]
    by_cases hc : (containsSub ("ACCOUNT_NUMBER:".data ++ acct) row.entities &&
        containsSub "MONEY:".data row.entities) = true
    · rw [if_pos hc]
      cases hs : searchMoneyVal row.entities with
      | some v =>
        rw [List.find?_cons_of_pos rest (by rw [hc, hs]; rfl)]
        simp [hs]
      | none =>
        rw [List.find?_cons_of_neg rest (by rw [hc, hs]; simp), ← ih]
    · rw [if_neg hc]
      rw [Bool.not_eq_true] at hc
      rw [List.find?_cons_of_neg rest (by rw [hc]; simp)]
      exact ih

theorem balTemplate_ne_nil (v : List Char) : balTemplate v ≠ [] := by
  simp [balTemplate]

/-- **C5, counterexample.** The claim says a non-empty response is
returned verbatim, but the source strips it first
(`(result.get(response) or "").strip()`): a matched Example whose
response is ` Sure ` (with surrounding spaces) produces the reply `Sure`,
which differs from the stored response. -/
theorem claim_C5_counterexample :
    (synth [] "hi".data " Sure ".data Entities.empty).1 = "Sure".data ∧
      "Sure".data ≠ " Sure ".data := by
  decide

/-- **C5, amended.** Reply synthesis: if the matched response is
non-empty *after trimming*, the reply is the trimmed response; otherwise,
in order: (a) the extracted amount templated; (b) else, for a non-empty
extracted account number, the first corpus row whose entities contain
both `ACCOUNT_NUMBER:` ++ the number and `MONEY:` as substrings *and in
which the pattern* `MONEY:(\d+)` *matches* supplies the matched digits
(rows passing the containment test but failing the pattern are skipped),
and that value is also recorded as the extracted amount; (c) else the
first digit run of the raw utterance templated; (d) else the empty
string, with the entity dict unchanged in all cases except (b). -/
theorem claim_C5_synth_characterization (ds : List Row)
    (um resp : List Char) (e : Entities) :
    (synth ds um resp e).1 = specSynthReply ds um resp e ∧
      (synth ds um resp e).2 =
        (if pyStrip resp = [] then
          match e.amount with
          | some _ => e
          | none =>
            match specPairMoney ds (e.account_number.getD []) with
            | some v => { e with amount := some v }
            | none => e
        else e) := by
  by_cases hr : pyStrip resp = []
  · cases ha : e.amount with
    | some amt =>
      constructor
      · simp [synth, specSynthReply, hr, ha, balTemplate_ne_nil]
      · simp [synth, hr, ha, balTemplate_ne_nil]
    | none =>
      by_cases hacct : e.account_number.getD [] = []
      · have hpair : specPairMoney ds ([] : List Char) = none := by
          simp [specPairMoney]
        cases hd : digitRuns um with
        | nil =>
          constructor
          · simp [synth, specSynthReply, hr, ha, hacct, hpair, hd]
          · simp [synth, hr, ha, hacct, hpair, hd]
        | cons d rest =>
          constructor
          · simp [synth, specSynthReply, hr, ha, hacct, hpair, hd,
              balTemplate_ne_nil]
          · simp [synth, hr, ha, hacct, hpair, hd]
      · have hpair : specPairMoney ds (e.account_number.getD []) =
            scanMoney (e.account_number.getD []) ds := by
          rw [specPairMoney, if_neg hacct, scanMoney_eq_find]
        cases hscan : scanMoney (e.account_number.getD []) ds with
        | some v =>
          constructor
          · simp [synth, specSynthReply, hr, ha, hacct, hpair, hscan,
              balTemplate_ne_nil]
          · simp [synth, hr, ha, hacct, hpair, hscan, balTemplate_ne_nil]
        | none =>
          cases hd : digitRuns um with
          | nil =>
            constructor
            · simp [synth, specSynthReply, hr, ha, hacct, hpair, hscan, hd]
            · simp [synth, hr, ha, hacct, hpair, hscan, hd]
          | cons d rest =>
            constructor
            · simp [synth, specSynthReply, hr, ha, hacct, hpair, hscan, hd,
                balTemplate_ne_nil]
            · simp [synth, hr, ha, hacct, hpair, hscan, hd]
  · constructor
    · simp [synth, specSynthReply, hr]
    · simp [synth, hr]

/-! ### Token-overlap stage (C3) -/

theorem le_foldr_max (l : List Nat) (s : Nat) : s ≤ l.foldr max s := by
  induction l with
  | nil => exact le_refl s
  | cons a l ih => exact le_trans ih (le_max_right a _)

theorem foldr_max_absorb (l : List Nat) (s t : Nat) (h : s ≤ t) :
    l.foldr max t = max t (l.foldr max s) := by
  induction l with
  | nil => simp [max_eq_left h]
  | cons a l ih =>
    simp only [List.foldr_cons]
    rw [ih, ← max_assoc, max_comm a t, max_assoc]

theorem foldr_max_mem (l : List Nat) (s : Nat) :
    l.foldr max s = s ∨ l.foldr max s ∈ l := by
  induction l with
  | nil => exact Or.inl rfl
  | cons a l ih =>
    simp only [List.foldr_cons]
    rcases le_or_lt a (l.foldr max s) with h | h
    · rw [max_eq_right h]
      rcases ih with h' | h'
      · exact Or.inl h'
      · exact Or.inr (List.mem_cons_of_mem a h')
    · rw [max_eq_left (le_of_lt h)]
      exact Or.inr (List.mem_cons_self a l)

theorem tokenOverlap_nil (m : List Char) : tokenOverlap m [] = 0 := by
  simp [tokenOverlap, pySplit, pySplitAux]

theorem stage3Aux_spec (message_norm : List Char) (rows : List Row) :
    ∀ (best : Option Row) (s : Nat),
      stage3Aux message_norm rows best s =
        (if (rows.map (fun row =>
              tokenOverlap message_norm (rowNorm row))).foldr max s = s then
          (best, s)
        else
          (rows.find? (fun row =>
              tokenOverlap message_norm (rowNorm row) ==
                (rows.map (fun row =>
                  tokenOverlap message_norm (rowNorm row))).foldr max s),
            (rows.map (fun row =>
              tokenOverlap message_norm (rowNorm row))).foldr max s)) := by
  induction rows with
  | nil => intro best s; simp [stage3Aux]
  | cons row rest ih =>
    intro best s
    simp only [stage3Aux, List.map_cons, List.foldr_cons]
    by_cases hnil : rowNorm row = []
    · rw [if_pos hnil, ih best s]
      have hsr : tokenOverlap message_norm (rowNorm row) = 0 := by
        rw [hnil]; exact tokenOverlap_nil message_norm
      rw [hsr, Nat.zero_max]
      by_cases hM : (rest.map (fun row =>
          tokenOverlap message_norm (rowNorm row))).foldr max s = s
      · rw [if_pos hM, if_pos hM]
      · rw [if_neg hM, if_neg hM]
        have hlt : s < (rest.map (fun row =>
            tokenOverlap message_norm (rowNorm row))).foldr max s :=
          lt_of_le_of_ne (le_foldr_max _ _) (Ne.symm hM)
        rw [List.find?_cons_of_neg rest (by simp [hsr]; omega)]
    · rw [if_neg hnil]
      by_cases hlt : s < tokenOverlap message_norm (rowNorm row)
      · rw [if_pos hlt, ih (some row) (tokenOverlap message_norm (rowNorm row))]
        have habs : (rest.map (fun row =>
            tokenOverlap message_norm (rowNorm row))).foldr max
              (tokenOverlap message_norm (rowNorm row)) =
            max (tokenOverlap message_norm (rowNorm row))
              ((rest.map (fun row =>
                tokenOverlap message_norm (rowNorm row))).foldr max s) :=
          foldr_max_absorb _ s _ (le_of_lt hlt)
        rw [← habs]
        have hMs : (rest.map (fun row =>
            tokenOverlap message_norm (rowNorm row))).foldr max
              (tokenOverlap message_norm (rowNorm row)) ≠ s := by
          have h1 := le_foldr_max ((rest.map (fun row =>
            tokenOverlap message_norm (rowNorm row))))
            (tokenOverlap message_norm (rowNorm row))
          omega
        rw [if_neg hMs]
        by_cases hM' : (rest.map (fun row =>
            tokenOverlap message_norm (rowNorm row))).foldr max
              (tokenOverlap message_norm (rowNorm row)) =
            tokenOverlap message_norm (rowNorm row)
        · rw [if_pos hM',
            List.find?_cons_of_pos rest (by simp [hM']), hM']
        · rw [if_neg hM']
          have h1 := le_foldr_max ((rest.map (fun row =>
            tokenOverlap message_norm (rowNorm row))))
            (tokenOverlap message_norm (rowNorm row))
          rw [List.find?_cons_of_neg rest (by simp; omega)]
      · rw [if_neg hlt, ih best s]
        have hle : tokenOverlap message_norm (rowNorm row) ≤ s :=
          Nat.not_lt.mp hlt
        have hmax : max (tokenOverlap message_norm (rowNorm row))
            ((rest.map (fun row =>
              tokenOverlap message_norm (rowNorm row))).foldr max s) =
            (rest.map (fun row =>
              tokenOverlap message_norm (rowNorm row))).foldr max s :=
          max_eq_right (le_trans hle (le_foldr_max _ _))
        rw [hmax]
        by_cases hM : (rest.map (fun row =>
            tokenOverlap message_norm (rowNorm row))).foldr max s = s
        · rw [if_pos hM, if_pos hM]
        · rw [if_neg hM, if_neg hM]
          have hlt2 : s < (rest.map (fun row =>
              tokenOverlap message_norm (rowNorm row))).foldr max s :=
            lt_of_le_of_ne (le_foldr_max _ _) (Ne.symm hM)
          rw [List.find?_cons_of_neg rest (by simp; omega)]

theorem stage3_spec (message_norm : List Char) (ds : List Row) :
    stage3 message_norm ds =
      (if 1 ≤ (ds.map (fun row =>
            tokenOverlap message_norm (rowNorm row))).foldr max 0 then
        (ds.find? (fun row =>
            tokenOverlap message_norm (rowNorm row) ==
              (ds.map (fun row =>
                tokenOverlap message_norm (rowNorm row))).foldr max 0)).map
          mkResult
      else none) := by
  by_cases hM : (ds.map (fun row =>
      tokenOverlap message_norm (rowNorm row))).foldr max 0 = 0
  · rw [stage3, stage3Aux_spec message_norm ds none 0, if_pos hM]
    rw [if_neg (by omega)]
  · have hpos : 1 ≤ (ds.map (fun row =>
        tokenOverlap message_norm (rowNorm row))).foldr max 0 := by omega
    rw [stage3, stage3Aux_spec message_norm ds none 0, if_neg hM, if_pos hpos]
    have hmem : (ds.map (fun row =>
        tokenOverlap message_norm (rowNorm row))).foldr max 0 ∈
        ds.map (fun row => tokenOverlap message_norm (rowNorm row)) := by
      rcases foldr_max_mem (ds.map (fun row =>
        tokenOverlap message_norm (rowNorm row))) 0 with h | h
      · exact absurd h hM
      · exact h
    rcases List.mem_map.mp hmem with ⟨row, hrow, hscore⟩
    have hfind : (ds.find? (fun row =>
        tokenOverlap message_norm (rowNorm row) ==
          (ds.map (fun row =>
            tokenOverlap message_norm (rowNorm row))).foldr max 0)) ≠ none := by
      intro hnone
      rw [List.find?_eq_none] at hnone
      exact hnone row hrow (by simp [hscore])
    rcases Option.ne_none_iff_exists.mp hfind with ⟨row', hrow'⟩
    rw [← hrow']
    simp [hpos]

theorem tokenOverlap_card (a b : List Char) :
    tokenOverlap a b = ((pySplit b).toFinset ∩ (pySplit a).toFinset).card := by
  rw [Finset.inter_comm, ← Finset.filter_mem_eq_inter]
  have hnd : ((pySplit a).dedup.filter
      (fun t => (pySplit b).dedup.contains t)).Nodup :=
    (List.nodup_dedup _).filter _
  rw [tokenOverlap, ← List.toFinset_card_of_nodup hnd, List.toFinset_filter]
  congr 1
  ext x
  simp [List.mem_dedup]

/-- **C3.** Token-overlap stage: when the first two stages fail on a
non-empty utterance, the matcher returns the first row (by stored order)
whose overlap score equals the maximum score over all rows, provided the
maximum is at least 1, and returns absent otherwise — a strictly larger
score is needed to displace the current best, so the first row attaining
the maximum wins ties; and the score is the raw size of the intersection
of the row token set with the utterance token set, not normalized by row
length. -/
theorem claim_C3_token_overlap (ds : List Row) (msg : List Char)
    (h0 : msg ≠ [])
    (h1 : stage1 (normalize_text msg) ds = none)
    (h2 : stage2 msg (digitRuns msg).flatten (digitRuns msg) ds = none) :
    (find_intent_response ds msg =
      (if 1 ≤ (ds.map (fun row =>
            tokenOverlap (normalize_text msg) (rowNorm row))).foldr max 0 then
        (ds.find? (fun row =>
            tokenOverlap (normalize_text msg) (rowNorm row) ==
              (ds.map (fun row =>
                tokenOverlap (normalize_text msg) (rowNorm row))).foldr
                max 0)).map mkResult
      else none)) ∧
    ∀ a b : List Char,
      tokenOverlap a b =
        ((pySplit b).toFinset ∩ (pySplit a).toFinset).card := by
  constructor
  · have hs : find_intent_response ds msg = stage3 (normalize_text msg) ds := by
      simp [find_intent_response, h0, h1, h2]
    rw [hs, stage3_spec]
  · exact tokenOverlap_card

/-- Witness for C3, the token-overlap example of the spec: utterance
`tell me about loan` selects the loan row (overlap 1 beats 0 in stored
order) out of the loan/card corpus. -/
theorem claim_C3_witness :
    find_intent_response [exRowLoan, exRowCard] "tell me about loan".data =
      (if 1 ≤ ([exRowLoan, exRowCard].map (fun row =>
            tokenOverlap (normalize_text "tell me about loan".data)
              (rowNorm row))).foldr max 0 then
        ([exRowLoan, exRowCard].find? (fun row =>
            tokenOverlap (normalize_text "tell me about loan".data)
              (rowNorm row) ==
              ([exRowLoan, exRowCard].map (fun row =>
                tokenOverlap (normalize_text "tell me about loan".data)
                  (rowNorm row))).foldr max 0)).map mkResult
      else none) :=
  (claim_C3_token_overlap [exRowLoan, exRowCard] "tell me about loan".data
    (by decide) (by decide) (by decide)).1

/-! ### Idempotence of normalization (C8)

The output of `normalize_text` consists of space-joined, whitespace-free,
non-empty tokens over the allowed alphabet; each pass of a second
normalization is then the identity. -/

theorem toLower_of_allowed (c : Char) (h : allowedChar c = true) :
    c.toLower = c := by
  simp only [allowedChar, Bool.or_eq_true, Bool.and_eq_true,
    decide_eq_true_eq, beq_iff_eq] at h
  simp only [Char.toLower]
  rw [if_neg (by omega)]

theorem pyLower_of_allowed (l : List Char)
    (h : ∀ c ∈ l, allowedChar c = true) : pyLower l = l := by
  induction l with
  | nil => rfl
  | cons c cs ih =>
    simp only [pyLower, List.map_cons]
    rw [toLower_of_allowed c (h c (List.mem_cons_self c cs))]
    have := ih (fun d hd => h d (List.mem_cons_of_mem c hd))
    simp only [pyLower] at this
    rw [this]

theorem pySplitAux_tokens (l : List Char) : ∀ acc,
    (∀ c ∈ acc, isPySpace c = false) →
    ∀ t ∈ pySplitAux l acc, t ≠ [] ∧ ∀ c ∈ t, isPySpace c = false := by
  induction l with
  | nil =>
    intro acc hacc t ht
    by_cases h : acc = []
    · simp [pySplitAux, h] at ht
    · simp only [pySplitAux, if_neg h] at ht
      rw [List.mem_singleton] at ht
      subst ht
      refine ⟨by simpa using h, ?_⟩
      intro c hc
      exact hacc c (List.mem_reverse.mp hc)
  | cons c cs ih =>
    intro acc hacc t ht
    simp only [pySplitAux] at ht
    by_cases hsp : isPySpace c = true
    · rw [if_pos hsp] at ht
      by_cases h : acc = []
      · rw [if_pos h] at ht
        exact ih [] (by simp) t ht
      · rw [if_neg h] at ht
        rcases List.mem_cons.mp ht with ht' | ht'
        · subst ht'
          refine ⟨by simpa using h, ?_⟩
          intro d hd
          exact hacc d (List.mem_reverse.mp hd)
        · exact ih [] (by simp) t ht'
    · rw [if_neg hsp] at ht
      refine ih (c :: acc) ?_ t ht
      intro d hd
      rcases List.mem_cons.mp hd with hd' | hd'
      · subst hd'; exact Bool.not_eq_true _ ▸ (eq_false_of_ne_true hsp)
      · exact hacc d hd'

theorem pySplitAux_subset (l : List Char) : ∀ acc t, t ∈ pySplitAux l acc →
    ∀ c ∈ t, c ∈ l ∨ c ∈ acc := by
  induction l with
  | nil =>
    intro acc t ht c hc
    by_cases h : acc = []
    · simp [pySplitAux, h] at ht
    · simp only [pySplitAux, if_neg h] at ht
      rw [List.mem_singleton] at ht
      subst ht
      exact Or.inr (List.mem_reverse.mp hc)
  | cons a as ih =>
    intro acc t ht c hc
    simp only [pySplitAux] at ht
    by_cases hsp : isPySpace a = true
    · rw [if_pos hsp] at ht
      by_cases h : acc = []
      · rw [if_pos h] at ht
        rcases ih [] t ht c hc with h' | h'
        · exact Or.inl (List.mem_cons_of_mem a h')
        · simp at h'
      · rw [if_neg h] at ht
        rcases List.mem_cons.mp ht with ht' | ht'
        · subst ht'
          exact Or.inr (List.mem_reverse.mp hc)
        · rcases ih [] t ht' c hc with h' | h'
          · exact Or.inl (List.mem_cons_of_mem a h')
          · simp at h'
    · rw [if_neg hsp] at ht
      rcases ih (a :: acc) t ht c hc with h' | h'
      · exact Or.inl (List.mem_cons_of_mem a h')
      · rcases List.mem_cons.mp h' with h'' | h''
        · rw [h'']; exact Or.inl (List.mem_cons_self a as)
        · exact Or.inr h''

theorem mem_pyJoin (c : Char) : ∀ toks : List (List Char),
    c ∈ pyJoin ' ' toks → c = ' ' ∨ ∃ t ∈ toks, c ∈ t
  | [], h => by simp [pyJoin] at h
  | [t], h => Or.inr ⟨t, by simp, h⟩
  | t :: t' :: ts, h => by
    simp only [pyJoin] at h
    rcases List.mem_append.mp h with h' | h'
    · exact Or.inr ⟨t, by simp, h'⟩
    · rcases List.mem_cons.mp h' with h'' | h''
      · exact Or.inl h''
      · rcases mem_pyJoin c (t' :: ts) h'' with h3 | ⟨u, hu, hcu⟩
        · exact Or.inl h3
        · exact Or.inr ⟨u, List.mem_cons_of_mem t hu, hcu⟩

theorem normalize_chars (s : List Char) :
    ∀ c ∈ normalize_text s, allowedChar c = true := by
  intro c hc
  by_cases h : s = []
  · simp [normalize_text, h] at hc
  · simp only [normalize_text, if_neg h] at hc
    rcases mem_pyJoin c _ hc with h' | ⟨t, ht, hct⟩
    · subst h'; decide
    · rcases pySplitAux_subset _ [] t ht c hct with h'' | h''
      · exact List.of_mem_filter h''
      · simp at h''

theorem pyJoin_head (toks : List (List Char)) (hne : toks ≠ [])
    (hgood : ∀ t ∈ toks, t ≠ [] ∧ ∀ c ∈ t, isPySpace c = false) :
    ∃ c cs, pyJoin ' ' toks = c :: cs ∧ isPySpace c = false := by
  cases toks with
  | nil => exact absurd rfl hne
  | cons t ts =>
    obtain ⟨htne, htc⟩ := hgood t (List.mem_cons_self t ts)
    cases t with
    | nil => exact absurd rfl htne
    | cons c rest =>
      have hcsp := htc c (List.mem_cons_self c rest)
      cases ts with
      | nil => exact ⟨c, rest, rfl, hcsp⟩
      | cons t' ts' =>
        exact ⟨c, rest ++ ' ' :: pyJoin ' ' (t' :: ts'), rfl, hcsp⟩

theorem pyJoin_reverse_head (toks : List (List Char)) (hne : toks ≠ [])
    (hgood : ∀ t ∈ toks, t ≠ [] ∧ ∀ c ∈ t, isPySpace c = false) :
    ∃ c cs, (pyJoin ' ' toks).reverse = c :: cs ∧ isPySpace c = false := by
  induction toks with
  | nil => exact absurd rfl hne
  | cons t ts ih =>
    cases ts with
    | nil =>
      obtain ⟨htne, htc⟩ := hgood t (List.mem_cons_self t [])
      have : (pyJoin ' ' [t]).reverse = t.reverse := rfl
      rw [this]
      cases hrev : t.reverse with
      | nil => exact absurd (by simpa using hrev) htne
      | cons c cs =>
        refine ⟨c, cs, rfl, ?_⟩
        have : c ∈ t.reverse := by rw [hrev]; exact List.mem_cons_self c cs
        exact htc c (List.mem_reverse.mp this)
    | cons t' ts' =>
      obtain ⟨c, cs, hc, hcsp⟩ := ih (by simp)
        (fun u hu => hgood u (List.mem_cons_of_mem t hu))
      refine ⟨c, cs ++ ' ' :: t.reverse, ?_, hcsp⟩
      show (t ++ ' ' :: pyJoin ' ' (t' :: ts')).reverse = _
      rw [List.reverse_append, List.reverse_cons, List.append_assoc, hc]
      rfl

theorem pyStrip_pyJoin (toks : List (List Char))
    (hgood : ∀ t ∈ toks, t ≠ [] ∧ ∀ c ∈ t, isPySpace c = false) :
    pyStrip (pyJoin ' ' toks) = pyJoin ' ' toks := by
  cases htoks : toks with
  | nil => rfl
  | cons t ts =>
    rw [← htoks]
    obtain ⟨c, cs, hc, hcsp⟩ := pyJoin_head toks (by rw [htoks]; simp) hgood
    obtain ⟨c', cs', hc', hcsp'⟩ :=
      pyJoin_reverse_head toks (by rw [htoks]; simp) hgood
    rw [hc] at hc' ⊢
    unfold pyStrip
    rw [List.dropWhile_cons, if_neg (by simp [hcsp]), hc',
      List.dropWhile_cons, if_neg (by simp [hcsp']), ← hc',
      List.reverse_reverse]

theorem replaceAux_id (p r s : List Char) (hp : apos ∈ p)
    (hs : ∀ c ∈ s, allowedChar c = true) : replaceAux p r s 0 = s := by
  induction s with
  | nil => rfl
  | cons c cs ih =>
    simp only [replaceAux]
    rw [if_neg]
    · rw [ih (fun d hd => hs d (List.mem_cons_of_mem c hd))]
    · intro hpre
      rw [List.isPrefixOf_iff_prefix] at hpre
      have h1 := hs apos (hpre.subset hp)
      exact absurd h1 (by decide)

theorem replaceList_id (p r s : List Char) (hp : apos ∈ p)
    (hs : ∀ c ∈ s, allowedChar c = true) : replaceList p r s = s :=
  replaceAux_id p r s hp hs

theorem pySplitAux_append_nospace (t : List Char)
    (ht : ∀ c ∈ t, isPySpace c = false) :
    ∀ (rest acc : List Char),
      pySplitAux (t ++ rest) acc = pySplitAux rest (t.reverse ++ acc) := by
  induction t with
  | nil => intro rest acc; simp
  | cons c t' ih =>
    intro rest acc
    simp only [List.cons_append, pySplitAux]
    rw [if_neg (by simp [ht c (List.mem_cons_self c t')])]
    rw [List.append_eq]
    rw [ih (fun d hd => ht d (List.mem_cons_of_mem c hd)) rest (c :: acc)]
    congr 1
    simp

theorem pySplit_pyJoin (toks : List (List Char))
    (hgood : ∀ t ∈ toks, t ≠ [] ∧ ∀ c ∈ t, isPySpace c = false) :
    pySplit (pyJoin ' ' toks) = toks := by
  induction toks with
  | nil => rfl
  | cons t ts ih =>
    obtain ⟨htne, htc⟩ := hgood t (List.mem_cons_self t ts)
    cases ts with
    | nil =>
      show pySplitAux t [] = [t]
      have h1 := pySplitAux_append_nospace t htc [] []
      rw [List.append_nil] at h1
      rw [h1]
      simp only [pySplitAux, List.append_nil]
      rw [if_neg (by simpa using htne)]
      rw [List.reverse_reverse]
    | cons t' ts' =>
      show pySplitAux (t ++ ' ' :: pyJoin ' ' (t' :: ts')) [] = t :: t' :: ts'
      rw [pySplitAux_append_nospace t htc _ []]
      simp only [pySplitAux, List.append_nil]
      rw [if_pos (by decide)]
      rw [if_neg (by simpa using htne)]
      rw [List.reverse_reverse]
      have := ih (fun u hu => hgood u (List.mem_cons_of_mem t hu))
      rw [show pySplitAux (pyJoin ' ' (t' :: ts')) [] =
        pySplit (pyJoin ' ' (t' :: ts')) from rfl, this]

theorem normalize_idem (s : List Char) :
    normalize_text (normalize_text s) = normalize_text s := by
  by_cases h : s = []
  · rw [h]; decide
  · by_cases hy : normalize_text s = []
    · rw [hy]; decide
    · have hrepr : ∃ toks, normalize_text s = pyJoin ' ' toks ∧
          ∀ t ∈ toks, t ≠ [] ∧ ∀ c ∈ t, isPySpace c = false := by
        refine ⟨pySplit ((replaceList patIm ('i' :: ' ' :: ['a', 'm'])
          (replaceList patIts "it is".data
            (replaceList patWhats "what is".data
              (pyStrip (pyLower s))))).filter allowedChar), ?_, ?_⟩
        · simp only [normalize_text, if_neg h]
        · intro t ht
          exact pySplitAux_tokens _ [] (by simp) t ht
      obtain ⟨toks, hrepr, hgood⟩ := hrepr
      have hall : ∀ c ∈ normalize_text s, allowedChar c = true :=
        normalize_chars s
      rw [hrepr] at hall hy ⊢
      simp only [normalize_text, if_neg hy]
      rw [pyLower_of_allowed _ hall,
        pyStrip_pyJoin toks hgood,
        replaceList_id patWhats "what is".data _ (by decide) hall,
        replaceList_id patIts "it is".data _ (by decide) hall,
        replaceList_id patIm ('i' :: ' ' :: ['a', 'm']) _ (by decide) hall,
        List.filter_eq_self.mpr hall,
        pySplit_pyJoin toks hgood]

/-- **C8.** `normalize_text` is idempotent on every input, and the
spec example holds: normalizing `What` + apostrophe + `s my Balance?`
agrees with normalizing `what is my balance` (the pure function
lowercases and trims, expands the fixed contractions, keeps only
lowercase letters, digits and spaces, and collapses whitespace runs). -/
theorem claim_C8_normalize_idempotent :
    (∀ s : List Char, normalize_text (normalize_text s) = normalize_text s) ∧
      normalize_text whatsMyBalance =
        normalize_text "what is my balance".data :=
  ⟨normalize_idem, by decide⟩

end BankBot
